import Mathlib

/-!
Verification development for the fuel-core structured storage layer.

The development embeds, as Lean functions over `List Nat` byte sequences
(each byte a natural number below 256):

* the fixed-width big-endian primitive codecs and the UtxoId composite
  codec of `crates/storage/src/codec/primitive.rs`;
* the raw passthrough codec, the key-value store with changesets, the
  structured storage adapter and the Merkle root bookkeeping, which are
  consumed by the excerpted files but whose own sources are not part of
  the excerpt; these are modelled from the specification and each such
  definition is marked `Modelled from the spec:`;
* the `Database` facade of `crates/fuel-core/src/database/storage.rs`
  and the `ContractsRawCode` raw-bypass override of
  `crates/storage/src/structured_storage/contracts.rs`.
-/

namespace FuelStorage

/-- A byte sequence: a list of naturals, each intended to be below 256. -/
abbrev Bytes := List Nat

/-- Decode failure of a codec, mirroring the `anyhow::Result` failure of
`try_from` on a slice of the wrong length in `codec/primitive.rs`. -/
inductive DecodeError where
  | wrongLength
deriving DecidableEq, Repr

/-- Big-endian byte encoding of `n` with width `w`, most significant byte
first: the embedding of `to_be_bytes` used by the `Primitive<SIZE>` codec
(`impl_encode` in `codec/primitive.rs`). -/
def beBytes : Nat → Nat → Bytes
  | 0, _ => []
  | w + 1, n => (n / 256 ^ w) % 256 :: beBytes w n

/-- Big-endian value of a byte sequence, the embedding of
`from_be_bytes` used by `impl_decode` in `codec/primitive.rs`. -/
def beValue (bs : Bytes) : Nat :=
  bs.foldl (fun acc b => acc * 256 + b) 0

/-- Fixed-width decode: the embedding of `impl_decode` in
`codec/primitive.rs` — `try_from` fails unless the slice length is
exactly the width, then `from_be_bytes` interprets the bytes. -/
def primitiveDecode (w : Nat) (bs : Bytes) : Except DecodeError Nat :=
  if bs.length = w then .ok (beValue bs) else .error .wrongLength

/-- A transaction id is 32 bytes (`TxId::LEN`). -/
def txIdLen : Nat := 32

/-- A UtxoId as in `fuel_tx`: a 32-byte transaction id plus a one-byte
output index. -/
structure UtxoId where
  txId : Bytes
  outputIndex : Nat
deriving DecidableEq, Repr

/-- The embedding of `utxo_id_to_bytes` in `codec/primitive.rs`: the
32 transaction-id bytes followed by the output index byte. -/
def utxo_id_to_bytes (u : UtxoId) : Bytes :=
  u.txId ++ [u.outputIndex]

/-- The embedding of `Decode<UtxoId> for Primitive<{TxId::LEN + 1}>` in
`codec/primitive.rs`: `try_from` fails unless the input is exactly 33
bytes, then the first 32 bytes become the tx id and the last byte the
output index. -/
def utxoIdDecode (bs : Bytes) : Except DecodeError UtxoId :=
  if bs.length = txIdLen + 1 then
    .ok ⟨bs.take txIdLen, beValue (bs.drop txIdLen)⟩
  else
    .error .wrongLength

/-- Modelled from the spec: the raw passthrough codec (`codec/raw.rs`,
not part of the excerpt) stores "the exact byte sequence handed in, no
length prefix, no framing". Encode is the identity on bytes. -/
def rawEncode (bs : Bytes) : Bytes := bs

/-- Modelled from the spec: raw passthrough decode "never fails (accepts
any byte length) because it performs no interpretation beyond
identity". -/
def rawDecode (bs : Bytes) : Except DecodeError Bytes := .ok bs

/-- The `impl_encode!` instantiation `BlockHeight, 4` of
`codec/primitive.rs`: a block height encodes as its 4 big-endian
bytes. -/
def blockHeightEncode (n : Nat) : Bytes := beBytes 4 n

/-- The `impl Decode<BlockHeight> for Primitive<4>` of
`codec/primitive.rs`: `try_from` a 4-byte array, then
`BlockHeight::from` its big-endian value. -/
def blockHeightDecode (bs : Bytes) : Except DecodeError Nat :=
  primitiveDecode 4 bs

/-- The `impl_encode!` instantiation `DaBlockHeight, 8` of
`codec/primitive.rs`. -/
def daBlockHeightEncode (n : Nat) : Bytes := beBytes 8 n

/-- The `impl Decode<DaBlockHeight> for Primitive<8>` of
`codec/primitive.rs`. -/
def daBlockHeightDecode (bs : Bytes) : Except DecodeError Nat :=
  primitiveDecode 8 bs

/-! ## Key-value store and changesets

The raw byte store of §4.4 of the spec is consumed by the excerpted
files through the `KeyValueStore` interface; its own source is not part
of the excerpt, so it is modelled from the spec. -/

/-- The physical namespaces (columns) appearing in the excerpted files:
`Column::ContractsRawCode`, `Column::ContractsInfo`,
`Column::ContractsLatestUtxo`, `Column::FuelBlocks` occur literally in
`structured_storage/contracts.rs` and `structured_storage/blocks.rs`;
the remaining constructors name the tables enumerated by
`use_structured_implementation!` in `database/storage.rs`. -/
inductive Column where
  | ContractsRawCode
  | ContractsInfo
  | ContractsLatestUtxo
  | FuelBlocks
  | ContractsAssets
  | ContractsState
  | SpentMessages
  | SealedBlockConsensus
  | Transactions
  | Receipts
  | ContractsStateMerkleMetadata
  | ContractsStateMerkleData
  | ContractsAssetsMerkleMetadata
  | ContractsAssetsMerkleData
  | OwnedCoins
  | OwnedMessageIds
  | OwnedTransactions
  | TransactionStatuses
  | FuelBlockSecondaryKeyBlockHeights
  | FuelBlockMerkleData
  | FuelBlockMerkleMetadata
deriving DecidableEq, Repr

/-- Modelled from the spec: the raw key-value store state, "byte-oriented
store partitioned by column", "within one table, a key uniquely
identifies at most one value". An association list from (column, key) to
value bytes, kept duplicate-free by construction of the operations. -/
def KVState := List ((Column × Bytes) × Bytes)

/-- Modelled from the spec: raw point lookup `get(column, key) ->
Option<byte-buffer>`. -/
def kvGet (s : KVState) (c : Column) (k : Bytes) : Option Bytes :=
  (s.find? (fun e => e.1 = (c, k))).map (·.2)

/-- Modelled from the spec: raw existence check
`contains_key(column, key) -> bool`. -/
def kvContains (s : KVState) (c : Column) (k : Bytes) : Bool :=
  (kvGet s c k).isSome

/-- Modelled from the spec: insert-or-overwrite of one raw entry; the
key space of a column holds at most one value per key. -/
def kvPut (s : KVState) (c : Column) (k : Bytes) (v : Bytes) : KVState :=
  ((c, k), v) :: s.filter (fun e => e.1 ≠ (c, k))

/-- Modelled from the spec: removal of one raw entry. -/
def kvRemove (s : KVState) (c : Column) (k : Bytes) : KVState :=
  s.filter (fun e => e.1 ≠ (c, k))

/-- Modelled from the spec: a changeset entry, "insert-or-overwrite,
remove". -/
inductive WriteOperation where
  | insert (v : Bytes)
  | remove
deriving DecidableEq, Repr

/-- Modelled from the spec: "a Changeset is a sequence of (column, key,
operation) pairs ... applied as one atomic unit". -/
def Changeset := List (Column × Bytes × WriteOperation)

/-- Backing engine I/O failure, the spec's `StoreError`. -/
inductive StoreError where
  | ioError
deriving DecidableEq, Repr

/-- One changeset entry's effect on the raw store. -/
def applyOp (s : KVState) (op : Column × Bytes × WriteOperation) : KVState :=
  match op with
  | (c, k, .insert v) => kvPut s c k v
  | (c, k, .remove) => kvRemove s c k

/-- The combined effect of every entry of a changeset, in order. -/
def applyAll (s : KVState) (cs : Changeset) : KVState :=
  cs.foldl applyOp s

/-- Modelled from the spec: changeset application
`apply(changeset) -> Result<(), StoreError>`; "I/O errors from the
backing engine propagate as StoreError; there is no partial-apply
outcome". The backing engine's possible failure while processing the
i-th entry is modelled by the oracle `failAt`; on any failure the
original state is untouched and only the error escapes. -/
def commitGo (failAt : Nat → Bool) :
    Nat → KVState → Changeset → Except StoreError KVState
  | _, s, [] => .ok s
  | i, s, op :: rest =>
    if failAt i then .error .ioError
    else commitGo failAt (i + 1) (applyOp s op) rest

/-- Modelled from the spec: atomic commit of a changeset. -/
def commitChangeset (failAt : Nat → Bool) (s : KVState) (cs : Changeset) :
    Except StoreError KVState :=
  commitGo failAt 0 s cs

/-- The store state a reader observes after a commit attempt against
state `s`: the new state on success, still `s` on failure. -/
def observedState (s : KVState) (r : Except StoreError KVState) : KVState :=
  match r with
  | .ok s' => s'
  | .error _ => s

/-! ## Structured storage adapter

The generic adapter of §4.5 of the spec (`structure/plain.rs` and
`structured_storage.rs` are not part of the excerpt) is modelled from
the spec: encode the key, perform the raw operation on the table's
column, decode the value on the way back. -/

/-- Storage-layer failure: a decode failure or a backing-store failure,
the spec's two-member error taxonomy (§7). "Not found" is not an
error. -/
inductive StorageError where
  | codec (e : DecodeError)
  | store (e : StoreError)
deriving DecidableEq, Repr

/-- A table descriptor together with its structure: the physical column
and the key/value codec pair (§4.1, §4.3 of the spec; the concrete
bindings for `ContractsRawCode` and friends are in
`structured_storage/contracts.rs` / `blocks.rs`). -/
structure TableDef (K V : Type) where
  column : Column
  encodeKey : K → Bytes
  encodeValue : V → Bytes
  decodeValue : Bytes → Except DecodeError V

namespace SS

variable {K V : Type}

/-- Modelled from the spec: `get(key)`: "encode key via table's key
codec → raw get on the table's column → if present, decode via value
codec → return as OwnedValue, else None. Fails with StorageError on
decode failure (distinct from not found)." -/
def get (T : TableDef K V) (s : KVState) (k : K) :
    Except StorageError (Option V) :=
  match kvGet s T.column (T.encodeKey k) with
  | none => .ok none
  | some bs =>
    match T.decodeValue bs with
    | .ok v => .ok (some v)
    | .error e => .error (.codec e)

/-- Modelled from the spec: existence check through the raw store. -/
def contains_key (T : TableDef K V) (s : KVState) (k : K) :
    Except StorageError Bool :=
  .ok (kvContains s T.column (T.encodeKey k))

/-- Modelled from the spec: `insert(key, value)`: "encode both → raw
insert on the table's column → on success return the previous value
(decoded), if the slot was occupied." -/
def insert (T : TableDef K V) (s : KVState) (k : K) (v : V) :
    Except StorageError (Option V) × KVState :=
  let prev := kvGet s T.column (T.encodeKey k)
  let s' := kvPut s T.column (T.encodeKey k) (T.encodeValue v)
  match prev with
  | none => (.ok none, s')
  | some bs =>
    match T.decodeValue bs with
    | .ok pv => (.ok (some pv), s')
    | .error e => (.error (.codec e), s')

/-- Modelled from the spec: `remove(key)`: "raw remove → return
previous value if present." -/
def remove (T : TableDef K V) (s : KVState) (k : K) :
    Except StorageError (Option V) × KVState :=
  let prev := kvGet s T.column (T.encodeKey k)
  let s' := kvRemove s T.column (T.encodeKey k)
  match prev with
  | none => (.ok none, s')
  | some bs =>
    match T.decodeValue bs with
    | .ok pv => (.ok (some pv), s')
    | .error e => (.error (.codec e), s')

/-- Modelled from the spec: `size_of_value` reports the "stored length
without decoding". -/
def size_of_value (T : TableDef K V) (s : KVState) (k : K) :
    Except StorageError (Option Nat) :=
  .ok ((kvGet s T.column (T.encodeKey k)).map List.length)

/-- Modelled from the spec: streaming read into a caller buffer; the
returned value is the byte count placed there, the stored length. -/
def read (T : TableDef K V) (s : KVState) (k : K) :
    Except StorageError (Option Nat) :=
  .ok ((kvGet s T.column (T.encodeKey k)).map List.length)

/-- Modelled from the spec: `read_alloc` hands "back the stored bytes
directly", bypassing the value codec's decode step. -/
def read_alloc (T : TableDef K V) (s : KVState) (k : K) :
    Except StorageError (Option Bytes) :=
  .ok (kvGet s T.column (T.encodeKey k))

/-- Modelled from the spec (§4.6): `root(tree_key)` returns the
committed root stored in the tree's MerkleMetadata row, or the
canonical empty-tree root when the tree is still empty. -/
def root (metaColumn : Column) (s : KVState) (treeKey : Bytes) :
    Except StorageError Bytes :=
  .ok ((kvGet s metaColumn treeKey).getD (List.replicate 32 0))

end SS

/-- The `ContractsRawCode` table's structure from
`structured_storage/contracts.rs`: `Plain<Raw, Raw>` on
`Column::ContractsRawCode` — both codecs are the raw passthrough, the
key being the 32-byte contract id. -/
def contractsRawCode : TableDef Bytes Bytes :=
  { column := .ContractsRawCode
    encodeKey := rawEncode
    encodeValue := rawEncode
    decodeValue := rawDecode }

/-- The hand-written `read_alloc` of
`StorageRead<ContractsRawCode> for StructuredStorage` in
`structured_storage/contracts.rs`: a direct raw `get` on
`Column::ContractsRawCode` whose bytes are
returned as-is (cloned), with no decode step. -/
def contractsRawCode_read_alloc (s : KVState) (key : Bytes) :
    Except StorageError (Option Bytes) :=
  .ok (kvGet s .ContractsRawCode key)

/-- The hand-written `read` of the same impl: a direct raw `read` on
`Column::ContractsRawCode` into the caller's buffer, returning the byte
count. -/
def contractsRawCode_read (s : KVState) (key : Bytes) :
    Except StorageError (Option Nat) :=
  .ok ((kvGet s .ContractsRawCode key).map List.length)

/-! ## Database facade

The embedding of `crates/fuel-core/src/database/storage.rs`: the
node-visible `Database` holds a data source and every trait method
delegates to the structured storage implementation on it. -/

/-- The `Database` type: a wrapper around its `data: DataSource`, here
the raw store state reached through the structured storage adapter. -/
structure Database where
  data : KVState

/-- The allow-list produced by the `use_structured_implementation!`
macro invocation in `database/storage.rs`: exactly these tables opt
into the generic structured implementation (the `relayer`-feature entry
is omitted as the feature-gated extra). -/
def useStructuredImplementation : List Column :=
  [ .ContractsRawCode
  , .ContractsAssets
  , .ContractsState
  , .ContractsLatestUtxo
  , .ContractsInfo
  , .SpentMessages
  , .SealedBlockConsensus
  , .Transactions
  , .Receipts
  , .ContractsStateMerkleMetadata
  , .ContractsStateMerkleData
  , .ContractsAssetsMerkleMetadata
  , .ContractsAssetsMerkleData
  , .OwnedCoins
  , .OwnedMessageIds
  , .OwnedTransactions
  , .TransactionStatuses
  , .FuelBlockSecondaryKeyBlockHeights
  , .FuelBlockMerkleData
  , .FuelBlockMerkleMetadata ]

namespace Database

variable {K V : Type}

/-- `StorageInspect::get` of `database/storage.rs`:
`self.data.storage::<M>().get(key)`. -/
def get (T : TableDef K V) (db : Database) (k : K) :
    Except StorageError (Option V) :=
  SS.get T db.data k

/-- `StorageInspect::contains_key` of `database/storage.rs`:
`self.data.storage::<M>().contains_key(key)`. -/
def contains_key (T : TableDef K V) (db : Database) (k : K) :
    Except StorageError Bool :=
  SS.contains_key T db.data k

/-- `StorageMutate::insert` of `database/storage.rs`:
`self.data.storage_as_mut::<M>().insert(key, value)`. -/
def insert (T : TableDef K V) (db : Database) (k : K) (v : V) :
    Except StorageError (Option V) × Database :=
  let r := SS.insert T db.data k v
  (r.1, ⟨r.2⟩)

/-- `StorageMutate::remove` of `database/storage.rs`:
`self.data.storage_as_mut::<M>().remove(key)`. -/
def remove (T : TableDef K V) (db : Database) (k : K) :
    Except StorageError (Option V) × Database :=
  let r := SS.remove T db.data k
  (r.1, ⟨r.2⟩)

/-- `MerkleRootStorage::root` of `database/storage.rs`:
`self.data.storage::<M>().root(key)`. -/
def root (metaColumn : Column) (db : Database) (treeKey : Bytes) :
    Except StorageError Bytes :=
  SS.root metaColumn db.data treeKey

/-- `StorageSize::size_of_value` of `database/storage.rs`:
`<_ as StorageSize<M>>::size_of_value(&self.data, key)`. -/
def size_of_value (T : TableDef K V) (db : Database) (k : K) :
    Except StorageError (Option Nat) :=
  SS.size_of_value T db.data k

/-- `StorageRead::read` of `database/storage.rs`:
`self.data.storage::<M>().read(key, buf)`. -/
def read (T : TableDef K V) (db : Database) (k : K) :
    Except StorageError (Option Nat) :=
  SS.read T db.data k

/-- `StorageRead::read_alloc` of `database/storage.rs`:
`self.data.storage::<M>().read_alloc(key)`. -/
def read_alloc (T : TableDef K V) (db : Database) (k : K) :
    Except StorageError (Option Bytes) :=
  SS.read_alloc T db.data k

end Database

/-! ## Merkle tree contents and root determinism

The Merkle node-indexing and hashing code is outside the excerpted
files (the spec's §9 open question); what the spec fixes is that the
root is a deterministic function of the final set of (key, value) pairs
of a tree. The tree contents are modelled as an association list kept
sorted by an injective numeric code of the key, and the root as a
deterministic fold over that canonical form. -/

/-- Injective numeric code of a byte-sequence key (all bytes below
256): the big-endian value of the sequence with a leading 1 byte, so
that differing lengths stay distinguishable. -/
def keyCode (k : Bytes) : Nat :=
  beValue (1 :: k)

/-- Modelled from the spec: updating the tree contents with one
(key, value) pair — the slot for the key is created or overwritten,
keeping the contents sorted by key code. -/
def treeInsert (e : Bytes × Bytes) :
    List (Bytes × Bytes) → List (Bytes × Bytes)
  | [] => [e]
  | f :: t =>
    if keyCode e.1 < keyCode f.1 then e :: f :: t
    else if keyCode e.1 = keyCode f.1 then e :: t
    else f :: treeInsert e t

/-- Modelled from the spec: the tree contents reached by applying all
pairs of a changeset to the empty tree. -/
def treeOfPairs (l : List (Bytes × Bytes)) : List (Bytes × Bytes) :=
  l.foldr treeInsert []

/-- Modelled from the spec: the root is a deterministic digest of the
tree's canonical contents (the concrete hash is outside the excerpt;
any deterministic function of the contents witnesses the
determinism contract). -/
def computeRoot (t : List (Bytes × Bytes)) : Nat :=
  t.foldl (fun acc e => acc * 1000003 + keyCode e.1 + 7 * beValue e.2) 5381

/-- Entry order used for the canonical tree contents. -/
def entryLt (e f : Bytes × Bytes) : Prop :=
  keyCode e.1 < keyCode f.1

instance : IsAntisymm (Bytes × Bytes) entryLt :=
  ⟨fun _ _ h1 h2 => absurd h2 (lt_asymm h1)⟩

/-- Modelled from the spec: the secondary block-height index table of
the allow-list (its own binding file is not part of the excerpt) — a
raw 32-byte block id key whose value is a height stored by the 4-byte
big-endian primitive codec. -/
def fuelBlockSecondaryKeyBlockHeights : TableDef Bytes Nat :=
  { column := .FuelBlockSecondaryKeyBlockHeights
    encodeKey := rawEncode
    encodeValue := blockHeightEncode
    decodeValue := blockHeightDecode }

/-! ## Theorems -/

theorem beBytes_length (w n : Nat) : (beBytes w n).length = w := by
  induction w generalizing n with
  | zero => rfl
  | succ w ih => simp [beBytes, ih]

theorem beBytes_lt (w n : Nat) : ∀ b ∈ beBytes w n, b < 256 := by
  induction w generalizing n with
  | zero => intro b hb; cases hb
  | succ w ih =>
    intro b hb
    rcases List.mem_cons.mp hb with h | h
    · subst h; exact Nat.mod_lt _ (by norm_num)
    · exact ih n b h

theorem beValue_beBytes_aux (w n acc : Nat) :
    (beBytes w n).foldl (fun a b => a * 256 + b) acc =
      acc * 256 ^ w + n % 256 ^ w := by
  induction w generalizing n acc with
  | zero => simp [beBytes, Nat.mod_one]
  | succ w ih =>
    simp only [beBytes, List.foldl_cons, ih]
    have h : n % 256 ^ (w + 1) = n % 256 ^ w + 256 ^ w * (n / 256 ^ w % 256) :=
      Nat.mod_pow_succ
    ring_nf
    ring_nf at h
    omega

/-- Round-trip for the fixed-width big-endian pair. -/
theorem beValue_beBytes (w n : Nat) (h : n < 256 ^ w) :
    beValue (beBytes w n) = n := by
  have := beValue_beBytes_aux w n 0
  simpa [beValue, Nat.mod_eq_of_lt h] using this

theorem primitiveDecode_beBytes (w n : Nat) (h : n < 256 ^ w) :
    primitiveDecode w (beBytes w n) = .ok n := by
  simp [primitiveDecode, beBytes_length, beValue_beBytes w n h]

theorem utxo_id_to_bytes_length (u : UtxoId) (h : u.txId.length = txIdLen) :
    (utxo_id_to_bytes u).length = txIdLen + 1 := by
  simp [utxo_id_to_bytes, h]

theorem utxoIdDecode_utxo_id_to_bytes (u : UtxoId)
    (hlen : u.txId.length = txIdLen) :
    utxoIdDecode (utxo_id_to_bytes u) = .ok u := by
  have htake : (u.txId ++ [u.outputIndex]).take txIdLen = u.txId := by
    rw [← hlen]
    simp
  have hdrop : (u.txId ++ [u.outputIndex]).drop txIdLen = [u.outputIndex] := by
    rw [← hlen]
    simp
  simp [utxoIdDecode, utxo_id_to_bytes, hlen, htake, hdrop, beValue]

theorem kvGet_kvPut_same (s : KVState) (c : Column) (k v : Bytes) :
    kvGet (kvPut s c k v) c k = some v := by
  simp [kvGet, kvPut, List.find?]

theorem kvGet_kvPut_other (s : KVState) (c c' : Column) (k k' v : Bytes)
    (h : (c', k') ≠ (c, k)) :
    kvGet (kvPut s c k v) c' k' = kvGet s c' k' := by
  simp only [kvGet, kvPut]
  rw [List.find?_cons_of_neg _ (by simpa using Ne.symm h)]
  congr 1
  induction s with
  | nil => rfl
  | cons e t ih =>
    by_cases he : e.1 = (c, k)
    · have he' : e.1 ≠ (c', k') := by rw [he]; exact fun hh => h hh.symm
      rw [List.filter_cons_of_neg (by simpa using he),
        List.find?_cons_of_neg _ (by simpa using he'), ih]
    · rw [List.filter_cons_of_pos (by simpa using he)]
      by_cases hm : e.1 = (c', k')
      · rw [List.find?_cons_of_pos _ (by simpa using hm),
          List.find?_cons_of_pos _ (by simpa using hm)]
      · rw [List.find?_cons_of_neg _ (by simpa using hm),
          List.find?_cons_of_neg _ (by simpa using hm), ih]

theorem kvGet_kvRemove_same (s : KVState) (c : Column) (k : Bytes) :
    kvGet (kvRemove s c k) c k = none := by
  suffices h :
      (s.filter (fun e => e.1 ≠ (c, k))).find? (fun e => e.1 = (c, k)) =
        none by
    simp [kvGet, kvRemove, h]
  induction s with
  | nil => rfl
  | cons e t ih =>
    by_cases he : e.1 = (c, k)
    · rwa [List.filter_cons_of_neg (by simpa using he)]
    · rw [List.filter_cons_of_pos (by simpa using he),
        List.find?_cons_of_neg _ (by simpa using he)]
      exact ih

theorem commitGo_ok_or_error (failAt : Nat → Bool) (cs : Changeset) :
    ∀ (i : Nat) (s : KVState),
      commitGo failAt i s cs = .ok (applyAll s cs) ∨
        commitGo failAt i s cs = .error .ioError := by
  induction cs with
  | nil => intro i s; left; rfl
  | cons op rest ih =>
    intro i s
    by_cases h : failAt i
    · right; simp [commitGo, h]
    · have := ih (i + 1) (applyOp s op)
      simpa [commitGo, h, applyAll] using this

theorem treeInsert_mem (e : Bytes × Bytes) (t : List (Bytes × Bytes)) :
    ∀ x ∈ treeInsert e t, x = e ∨ x ∈ t := by
  induction t with
  | nil => intro x hx; simpa [treeInsert] using hx
  | cons y u ihy =>
    intro x hx
    rw [treeInsert] at hx
    split at hx
    · rcases List.mem_cons.mp hx with h | h
      · exact Or.inl h
      · exact Or.inr h
    · split at hx
      · rcases List.mem_cons.mp hx with h | h
        · exact Or.inl h
        · exact Or.inr (List.mem_cons_of_mem y h)
      · rcases List.mem_cons.mp hx with h | h
        · exact Or.inr (h ▸ List.mem_cons_self y u)
        · rcases ihy x h with h' | h'
          · exact Or.inl h'
          · exact Or.inr (List.mem_cons_of_mem y h')

theorem treeInsert_sorted (e : Bytes × Bytes) (t : List (Bytes × Bytes))
    (hs : t.Sorted entryLt) (hnm : ∀ f ∈ t, keyCode e.1 ≠ keyCode f.1) :
    (treeInsert e t).Sorted entryLt := by
  induction t with
  | nil => simp [treeInsert, List.Sorted]
  | cons f t ih =>
    rw [List.sorted_cons] at hs
    by_cases hlt : keyCode e.1 < keyCode f.1
    · rw [treeInsert, if_pos hlt, List.sorted_cons]
      constructor
      · intro g hg
        rcases List.mem_cons.mp hg with h | h
        · subst h; exact hlt
        · exact lt_trans hlt (hs.1 g h)
      · rw [List.sorted_cons]; exact hs
    · have hne : keyCode e.1 ≠ keyCode f.1 := hnm f (List.mem_cons_self f t)
      have hgt : keyCode f.1 < keyCode e.1 := by omega
      rw [treeInsert, if_neg hlt, if_neg hne, List.sorted_cons]
      constructor
      · intro g hg
        rcases treeInsert_mem e t g hg with h | h
        · subst h; exact hgt
        · exact hs.1 g h
      · exact ih hs.2 (fun g hg => hnm g (List.mem_cons_of_mem f hg))

theorem treeInsert_perm (e : Bytes × Bytes) (t : List (Bytes × Bytes))
    (hnm : ∀ f ∈ t, keyCode e.1 ≠ keyCode f.1) :
    (treeInsert e t).Perm (e :: t) := by
  induction t with
  | nil => simp [treeInsert]
  | cons f t ih =>
    rw [treeInsert]
    by_cases hlt : keyCode e.1 < keyCode f.1
    · rw [if_pos hlt]
    · have hne : keyCode e.1 ≠ keyCode f.1 := hnm f (List.mem_cons_self f t)
      rw [if_neg hlt, if_neg hne]
      have h1 : (treeInsert e t).Perm (e :: t) :=
        ih (fun g hg => hnm g (List.mem_cons_of_mem f hg))
      exact (h1.cons f).trans (List.Perm.swap e f t)

theorem treeOfPairs_perm (l : List (Bytes × Bytes))
    (hnd : (l.map (fun e => keyCode e.1)).Nodup) :
    (treeOfPairs l).Perm l := by
  induction l with
  | nil => simp [treeOfPairs]
  | cons e t ih =>
    rw [List.map_cons, List.nodup_cons] at hnd
    have hperm : (treeOfPairs t).Perm t := ih hnd.2
    have hnm : ∀ f ∈ treeOfPairs t, keyCode e.1 ≠ keyCode f.1 := by
      intro f hf hc
      exact hnd.1 (hc ▸ List.mem_map_of_mem _ (hperm.mem_iff.mp hf))
    have h1 : (treeInsert e (treeOfPairs t)).Perm (e :: treeOfPairs t) :=
      treeInsert_perm e (treeOfPairs t) hnm
    exact h1.trans (hperm.cons e)

theorem treeOfPairs_sorted (l : List (Bytes × Bytes))
    (hnd : (l.map (fun e => keyCode e.1)).Nodup) :
    (treeOfPairs l).Sorted entryLt := by
  induction l with
  | nil => simp [treeOfPairs, List.Sorted]
  | cons e t ih =>
    rw [List.map_cons, List.nodup_cons] at hnd
    have hperm : (treeOfPairs t).Perm t := treeOfPairs_perm t hnd.2
    have hnm : ∀ f ∈ treeOfPairs t, keyCode e.1 ≠ keyCode f.1 := by
      intro f hf hc
      exact hnd.1 (hc ▸ List.mem_map_of_mem _ (hperm.mem_iff.mp hf))
    exact treeInsert_sorted e (treeOfPairs t) (ih hnd.2) hnm

/-- C1: for every codec — the fixed-width primitive codecs for
u8/u16/u32/u64/u128 and the two height types, the UtxoId composite
codec and the raw passthrough codec — and every valid domain value `v`,
decoding the bytes produced by encoding `v` returns `Ok(v)`. -/
theorem C1_decode_encode_roundtrip :
    (∀ n : Nat, n < 256 ^ 1 → primitiveDecode 1 (beBytes 1 n) = .ok n) ∧
    (∀ n : Nat, n < 256 ^ 2 → primitiveDecode 2 (beBytes 2 n) = .ok n) ∧
    (∀ n : Nat, n < 256 ^ 4 → primitiveDecode 4 (beBytes 4 n) = .ok n) ∧
    (∀ n : Nat, n < 256 ^ 8 → primitiveDecode 8 (beBytes 8 n) = .ok n) ∧
    (∀ n : Nat, n < 256 ^ 16 → primitiveDecode 16 (beBytes 16 n) = .ok n) ∧
    (∀ n : Nat, n < 256 ^ 4 → blockHeightDecode (blockHeightEncode n) = .ok n) ∧
    (∀ n : Nat, n < 256 ^ 8 →
      daBlockHeightDecode (daBlockHeightEncode n) = .ok n) ∧
    (∀ u : UtxoId, u.txId.length = txIdLen →
      utxoIdDecode (utxo_id_to_bytes u) = .ok u) ∧
    (∀ bs : Bytes, rawDecode (rawEncode bs) = .ok bs) :=
  ⟨fun n h => primitiveDecode_beBytes 1 n h,
   fun n h => primitiveDecode_beBytes 2 n h,
   fun n h => primitiveDecode_beBytes 4 n h,
   fun n h => primitiveDecode_beBytes 8 n h,
   fun n h => primitiveDecode_beBytes 16 n h,
   fun n h => primitiveDecode_beBytes 4 n h,
   fun n h => primitiveDecode_beBytes 8 n h,
   fun u h => utxoIdDecode_utxo_id_to_bytes u h,
   fun _ => rfl⟩

/-- Witness for C1 at concrete inputs. -/
theorem C1_decode_encode_roundtrip_witness :
    primitiveDecode 1 (beBytes 1 200) = .ok 200 ∧
    primitiveDecode 2 (beBytes 2 40000) = .ok 40000 ∧
    primitiveDecode 4 (beBytes 4 3000000000) = .ok 3000000000 ∧
    primitiveDecode 8 (beBytes 8 10000000000) = .ok 10000000000 ∧
    primitiveDecode 16 (beBytes 16 400000000000000000000) = .ok 400000000000000000000 ∧
    blockHeightDecode (blockHeightEncode 5) = .ok 5 ∧
    daBlockHeightDecode (daBlockHeightEncode 77) = .ok 77 ∧
    utxoIdDecode (utxo_id_to_bytes ⟨List.replicate 32 1, 2⟩) =
      .ok ⟨List.replicate 32 1, 2⟩ ∧
    rawDecode (rawEncode [9, 9, 9]) = .ok [9, 9, 9] :=
  ⟨C1_decode_encode_roundtrip.1 200 (by norm_num),
   C1_decode_encode_roundtrip.2.1 40000 (by norm_num),
   C1_decode_encode_roundtrip.2.2.1 3000000000 (by norm_num),
   C1_decode_encode_roundtrip.2.2.2.1 10000000000 (by norm_num),
   C1_decode_encode_roundtrip.2.2.2.2.1 400000000000000000000 (by norm_num),
   C1_decode_encode_roundtrip.2.2.2.2.2.1 5 (by norm_num),
   C1_decode_encode_roundtrip.2.2.2.2.2.2.1 77 (by norm_num),
   C1_decode_encode_roundtrip.2.2.2.2.2.2.2.1 ⟨List.replicate 32 1, 2⟩
     (by simp [txIdLen]),
   C1_decode_encode_roundtrip.2.2.2.2.2.2.2.2 [9, 9, 9]⟩

/-- C5: the fixed-width primitive codecs encode u8, u16, u32,
BlockHeight, u64, DaBlockHeight and u128 as big-endian bytes of widths
1, 2, 4, 4, 8, 8 and 16 respectively; encoding the 32-bit block height
5 yields exactly `[0x00, 0x00, 0x00, 0x05]` and decoding those bytes
yields 5. -/
theorem C5_fixed_widths_big_endian :
    (∀ n : Nat, (beBytes 1 n).length = 1) ∧
    (∀ n : Nat, (beBytes 2 n).length = 2) ∧
    (∀ n : Nat, (beBytes 4 n).length = 4) ∧
    (∀ n : Nat, (blockHeightEncode n).length = 4) ∧
    (∀ n : Nat, (beBytes 8 n).length = 8) ∧
    (∀ n : Nat, (daBlockHeightEncode n).length = 8) ∧
    (∀ n : Nat, (beBytes 16 n).length = 16) ∧
    blockHeightEncode 5 = [0x00, 0x00, 0x00, 0x05] ∧
    blockHeightDecode [0x00, 0x00, 0x00, 0x05] = .ok 5 :=
  ⟨fun n => beBytes_length 1 n, fun n => beBytes_length 2 n,
   fun n => beBytes_length 4 n, fun n => beBytes_length 4 n,
   fun n => beBytes_length 8 n, fun n => beBytes_length 8 n,
   fun n => beBytes_length 16 n, by decide, by rfl⟩

/-- C6: the UtxoId composite codec encodes every UtxoId as exactly 33
bytes — the 32-byte transaction id followed by the 1-byte output index
(tx id 0x01 repeated 32 times with index 2 encodes to
`[0x01 × 32, 0x02]`); decode succeeds on every 33-byte input,
recovering the tx id and index, and fails on every input whose length
is not exactly 33 bytes. -/
theorem C6_utxo_id_codec :
    (∀ u : UtxoId, u.txId.length = txIdLen →
      (utxo_id_to_bytes u).length = 33 ∧
      utxo_id_to_bytes u = u.txId ++ [u.outputIndex] ∧
      utxoIdDecode (utxo_id_to_bytes u) = .ok u) ∧
    utxo_id_to_bytes ⟨List.replicate 32 0x01, 0x02⟩ =
      List.replicate 32 0x01 ++ [0x02] ∧
    (∀ bs : Bytes, bs.length = 33 →
      utxoIdDecode bs = .ok ⟨bs.take 32, beValue (bs.drop 32)⟩) ∧
    (∀ bs : Bytes, bs.length ≠ 33 →
      utxoIdDecode bs = .error .wrongLength) := by
  refine ⟨fun u hu => ⟨?_, rfl, utxoIdDecode_utxo_id_to_bytes u hu⟩,
    rfl, fun bs hbs => ?_, fun bs hbs => ?_⟩
  · simpa using utxo_id_to_bytes_length u hu
  · simp [utxoIdDecode, txIdLen, hbs]
  · simp [utxoIdDecode, txIdLen, hbs]

/-- Witness for C6 at concrete inputs. -/
theorem C6_utxo_id_codec_witness :
    (utxo_id_to_bytes ⟨List.replicate 32 1, 2⟩).length = 33 ∧
    utxoIdDecode (utxo_id_to_bytes ⟨List.replicate 32 1, 2⟩) =
      .ok ⟨List.replicate 32 1, 2⟩ ∧
    utxoIdDecode (List.replicate 33 7) =
      .ok ⟨List.replicate 32 7, 7⟩ ∧
    utxoIdDecode [1, 2, 3] = .error .wrongLength :=
  ⟨(C6_utxo_id_codec.1 ⟨List.replicate 32 1, 2⟩ (by simp [txIdLen])).1,
   (C6_utxo_id_codec.1 ⟨List.replicate 32 1, 2⟩ (by simp [txIdLen])).2.2,
   by
     have := C6_utxo_id_codec.2.2.1 (List.replicate 33 7) (by simp)
     simpa using this,
   C6_utxo_id_codec.2.2.2 [1, 2, 3] (by simp)⟩

/-- C7: every fixed-width primitive decode on a byte slice whose length
differs from the declared width returns an error (no silent truncation,
padding or defaulting); the raw passthrough decode never fails,
accepting any byte length. -/
theorem C7_length_mismatch_errors :
    (∀ w ∈ [1, 2, 4, 8, 16], ∀ bs : Bytes, bs.length ≠ w →
      primitiveDecode w bs = .error .wrongLength) ∧
    (∀ bs : Bytes, bs.length ≠ 4 →
      blockHeightDecode bs = .error .wrongLength) ∧
    (∀ bs : Bytes, bs.length ≠ 8 →
      daBlockHeightDecode bs = .error .wrongLength) ∧
    (∀ bs : Bytes, rawDecode bs = .ok bs) := by
  refine ⟨fun w _ bs hbs => ?_, fun bs hbs => ?_, fun bs hbs => ?_,
    fun bs => rfl⟩
  · simp [primitiveDecode, hbs]
  · simp [blockHeightDecode, primitiveDecode, hbs]
  · simp [daBlockHeightDecode, primitiveDecode, hbs]

/-- Witness for C7 at concrete inputs. -/
theorem C7_length_mismatch_errors_witness :
    primitiveDecode 4 [1, 2, 3] = .error .wrongLength ∧
    primitiveDecode 2 [1, 2, 3] = .error .wrongLength ∧
    blockHeightDecode [1, 2, 3, 4, 5] = .error .wrongLength ∧
    daBlockHeightDecode [] = .error .wrongLength ∧
    rawDecode [1, 2, 3] = .ok [1, 2, 3] :=
  ⟨C7_length_mismatch_errors.1 4 (by decide) [1, 2, 3] (by decide),
   C7_length_mismatch_errors.1 2 (by decide) [1, 2, 3] (by decide),
   C7_length_mismatch_errors.2.1 [1, 2, 3, 4, 5] (by decide),
   C7_length_mismatch_errors.2.2.1 [] (by decide),
   C7_length_mismatch_errors.2.2.2 [1, 2, 3]⟩

theorem SS.insert_state {K V : Type} (T : TableDef K V) (s : KVState)
    (k : K) (v : V) :
    (SS.insert T s k v).2 =
      kvPut s T.column (T.encodeKey k) (T.encodeValue v) := by
  simp only [SS.insert]
  cases hp : kvGet s T.column (T.encodeKey k) with
  | none => rfl
  | some bs => cases hd : T.decodeValue bs <;> simp [hd]

theorem SS.remove_state {K V : Type} (T : TableDef K V) (s : KVState)
    (k : K) :
    (SS.remove T s k).2 = kvRemove s T.column (T.encodeKey k) := by
  simp only [SS.remove]
  cases hp : kvGet s T.column (T.encodeKey k) with
  | none => rfl
  | some bs => cases hd : T.decodeValue bs <;> simp [hd]

theorem SS.get_after_insert {K V : Type} (T : TableDef K V) (s : KVState)
    (k : K) (v : V) (h : T.decodeValue (T.encodeValue v) = .ok v) :
    SS.get T (SS.insert T s k v).2 k = .ok (some v) := by
  rw [SS.insert_state]
  simp [SS.get, kvGet_kvPut_same, h]

theorem SS.insert_prev_after_insert {K V : Type} (T : TableDef K V)
    (s : KVState) (k : K) (v v2 : V)
    (h : T.decodeValue (T.encodeValue v) = .ok v) :
    (SS.insert T (SS.insert T s k v).2 k v2).1 = .ok (some v) := by
  rw [SS.insert_state]
  simp [SS.insert, kvGet_kvPut_same, h]

theorem SS.remove_prev_after_insert {K V : Type} (T : TableDef K V)
    (s : KVState) (k : K) (v : V)
    (h : T.decodeValue (T.encodeValue v) = .ok v) :
    (SS.remove T (SS.insert T s k v).2 k).1 = .ok (some v) := by
  rw [SS.insert_state]
  simp [SS.remove, kvGet_kvPut_same, h]

theorem SS.get_after_remove {K V : Type} (T : TableDef K V) (s : KVState)
    (k : K) :
    SS.get T (SS.remove T s k).2 k = .ok none := by
  rw [SS.remove_state]
  simp [SS.get, kvGet_kvRemove_same]

theorem SS.contains_after_remove {K V : Type} (T : TableDef K V)
    (s : KVState) (k : K) :
    SS.contains_key T (SS.remove T s k).2 k = .ok false := by
  rw [SS.remove_state]
  simp [SS.contains_key, kvContains, kvGet_kvRemove_same]

/-- C2: for every table, key `k` and values `v`, `v2`: `insert(k, v)`
followed by `get(k)` returns `Some(v)`; a second `insert(k, v2)`
returns the previous `Some(v)` and a subsequent `get(k)` returns
`Some(v2)`; `remove(k)` after `insert(k, v)` returns `Some(v)`, after
which `get(k)` returns `None` and `contains_key(k)` returns `false`. -/
theorem C2_insert_get_remove_consistency {K V : Type} (T : TableDef K V)
    (db : Database) (k : K) (v v2 : V)
    (hv : T.decodeValue (T.encodeValue v) = .ok v)
    (hv2 : T.decodeValue (T.encodeValue v2) = .ok v2) :
    Database.get T (Database.insert T db k v).2 k = .ok (some v) ∧
    (Database.insert T (Database.insert T db k v).2 k v2).1 =
      .ok (some v) ∧
    Database.get T (Database.insert T (Database.insert T db k v).2 k v2).2
      k = .ok (some v2) ∧
    (Database.remove T (Database.insert T db k v).2 k).1 = .ok (some v) ∧
    Database.get T (Database.remove T (Database.insert T db k v).2 k).2 k =
      .ok none ∧
    Database.contains_key T
      (Database.remove T (Database.insert T db k v).2 k).2 k = .ok false :=
  ⟨SS.get_after_insert T db.data k v hv,
   SS.insert_prev_after_insert T db.data k v v2 hv,
   SS.get_after_insert T (SS.insert T db.data k v).2 k v2 hv2,
   SS.remove_prev_after_insert T db.data k v hv,
   SS.get_after_remove T (SS.insert T db.data k v).2 k,
   SS.contains_after_remove T (SS.insert T db.data k v).2 k⟩

/-- Witness for C2: the contract-bytecode table over the empty store. -/
theorem C2_insert_get_remove_consistency_witness :
    contractsRawCode.decodeValue (contractsRawCode.encodeValue [5]) =
      .ok [5] ∧
    Database.get contractsRawCode
      (Database.insert contractsRawCode ⟨[]⟩ [1] [5]).2 [1] =
      .ok (some [5]) ∧
    (Database.insert contractsRawCode
      (Database.insert contractsRawCode ⟨[]⟩ [1] [5]).2 [1] [6]).1 =
      .ok (some [5]) ∧
    Database.get contractsRawCode
      (Database.insert contractsRawCode
        (Database.insert contractsRawCode ⟨[]⟩ [1] [5]).2 [1] [6]).2 [1] =
      .ok (some [6]) ∧
    (Database.remove contractsRawCode
      (Database.insert contractsRawCode ⟨[]⟩ [1] [5]).2 [1]).1 =
      .ok (some [5]) ∧
    Database.get contractsRawCode
      (Database.remove contractsRawCode
        (Database.insert contractsRawCode ⟨[]⟩ [1] [5]).2 [1]).2 [1] =
      .ok none ∧
    Database.contains_key contractsRawCode
      (Database.remove contractsRawCode
        (Database.insert contractsRawCode ⟨[]⟩ [1] [5]).2 [1]).2 [1] =
      .ok false := by
  have h := C2_insert_get_remove_consistency contractsRawCode ⟨[]⟩
    [1] [5] [6] rfl rfl
  exact ⟨rfl, h.1, h.2.1, h.2.2.1, h.2.2.2.1, h.2.2.2.2.1, h.2.2.2.2.2⟩

/-- C3: applying a changeset is all-or-nothing: either the commit
returns the state with every (column, key, operation) applied, or it
returns an error and the state a reader observes is the unchanged
original — never a partially applied changeset. -/
theorem C3_changeset_atomicity (failAt : Nat → Bool) (s : KVState)
    (cs : Changeset) :
    commitChangeset failAt s cs = .ok (applyAll s cs) ∨
      (commitChangeset failAt s cs = .error .ioError ∧
        observedState s (commitChangeset failAt s cs) = s) := by
  rcases commitGo_ok_or_error failAt cs 0 s with h | h
  · exact Or.inl h
  · refine Or.inr ⟨h, ?_⟩
    show observedState s (commitGo failAt 0 s cs) = s
    rw [h]
    rfl

/-- C4: the Merkle root depends only on the final set of (key, value)
pairs of a tree: applying the same final set via two different
insertion orders yields the same root. -/
theorem C4_merkle_root_order_independence (l1 l2 : List (Bytes × Bytes))
    (hperm : l1.Perm l2)
    (hnd : (l1.map (fun e => keyCode e.1)).Nodup) :
    computeRoot (treeOfPairs l1) = computeRoot (treeOfPairs l2) := by
  have hnd2 : (l2.map (fun e => keyCode e.1)).Nodup :=
    ((hperm.map (fun e => keyCode e.1)).nodup_iff).mp hnd
  have h1 := treeOfPairs_perm l1 hnd
  have h2 := treeOfPairs_perm l2 hnd2
  have hp : (treeOfPairs l1).Perm (treeOfPairs l2) :=
    h1.trans (hperm.trans h2.symm)
  have heq : treeOfPairs l1 = treeOfPairs l2 :=
    List.eq_of_perm_of_sorted hp (treeOfPairs_sorted l1 hnd)
      (treeOfPairs_sorted l2 hnd2)
  rw [heq]

/-- Witness for C4: two insertion orders of the same two pairs. -/
theorem C4_merkle_root_order_independence_witness :
    ([([1], [10]), ([2], [20])] : List (Bytes × Bytes)).Perm
      [([2], [20]), ([1], [10])] ∧
    computeRoot (treeOfPairs [([1], [10]), ([2], [20])]) =
      computeRoot (treeOfPairs [([2], [20]), ([1], [10])]) :=
  ⟨List.Perm.swap ([2], [20]) ([1], [10]) [],
   C4_merkle_root_order_independence [([1], [10]), ([2], [20])]
     [([2], [20]), ([1], [10])]
     (List.Perm.swap ([2], [20]) ([1], [10]) []) (by decide)⟩

/-- C8: for the contract-bytecode table, storing any byte blob under a
key and reading it back via the streaming read path returns exactly the
original bytes with no added framing, bypassing the value codec's
decode step; inserting the one-byte blob `[32]` under key `[1; 32]`
makes `read_alloc` return exactly `vec![32]` and `size_of_value` report
length 1. -/
theorem C8_raw_bypass :
    (∀ (s : KVState) (key blob : Bytes),
      Database.read_alloc contractsRawCode
          (Database.insert contractsRawCode ⟨s⟩ key blob).2 key =
        .ok (some blob) ∧
      contractsRawCode_read_alloc
          (Database.insert contractsRawCode ⟨s⟩ key blob).2.data key =
        .ok (some blob) ∧
      contractsRawCode_read
          (Database.insert contractsRawCode ⟨s⟩ key blob).2.data key =
        .ok (some blob.length) ∧
      Database.size_of_value contractsRawCode
          (Database.insert contractsRawCode ⟨s⟩ key blob).2 key =
        .ok (some blob.length)) ∧
    Database.read_alloc contractsRawCode
        (Database.insert contractsRawCode ⟨[]⟩ (List.replicate 32 1)
          [32]).2 (List.replicate 32 1) =
      .ok (some [32]) ∧
    Database.size_of_value contractsRawCode
        (Database.insert contractsRawCode ⟨[]⟩ (List.replicate 32 1)
          [32]).2 (List.replicate 32 1) =
      .ok (some 1) := by
  have hmain : ∀ (s : KVState) (key blob : Bytes),
      Database.read_alloc contractsRawCode
          (Database.insert contractsRawCode ⟨s⟩ key blob).2 key =
        .ok (some blob) ∧
      contractsRawCode_read_alloc
          (Database.insert contractsRawCode ⟨s⟩ key blob).2.data key =
        .ok (some blob) ∧
      contractsRawCode_read
          (Database.insert contractsRawCode ⟨s⟩ key blob).2.data key =
        .ok (some blob.length) ∧
      Database.size_of_value contractsRawCode
          (Database.insert contractsRawCode ⟨s⟩ key blob).2 key =
        .ok (some blob.length) := by
    intro s key blob
    have hstate : (Database.insert contractsRawCode ⟨s⟩ key blob).2.data =
        kvPut s Column.ContractsRawCode key blob :=
      SS.insert_state contractsRawCode s key blob
    refine ⟨?_, ?_, ?_, ?_⟩
    · show SS.read_alloc contractsRawCode
        (Database.insert contractsRawCode ⟨s⟩ key blob).2.data key = _
      rw [hstate]
      simp [SS.read_alloc, contractsRawCode, rawEncode, kvGet_kvPut_same]
    · rw [hstate]
      simp [contractsRawCode_read_alloc, kvGet_kvPut_same]
    · rw [hstate]
      simp [contractsRawCode_read, kvGet_kvPut_same]
    · show SS.size_of_value contractsRawCode
        (Database.insert contractsRawCode ⟨s⟩ key blob).2.data key = _
      rw [hstate]
      simp [SS.size_of_value, contractsRawCode, rawEncode, kvGet_kvPut_same]
  refine ⟨hmain, ?_, ?_⟩
  · simpa using (hmain [] (List.replicate 32 1) [32]).1
  · simpa using (hmain [] (List.replicate 32 1) [32]).2.2.2

/-- C9: a lookup whose key is absent is not an error: `get`, `read` and
`read_alloc` return a successful `None` and `contains_key` returns
`false` — distinct from decode failures, which are surfaced to the
caller as errors, never swallowed. -/
theorem C9_not_found_is_not_error {K V : Type} (T : TableDef K V)
    (s : KVState) (k : K)
    (habs : kvGet s T.column (T.encodeKey k) = none)
    (s' : KVState) (bs : Bytes) (e : DecodeError)
    (hsome : kvGet s' T.column (T.encodeKey k) = some bs)
    (hdec : T.decodeValue bs = .error e) :
    Database.get T ⟨s⟩ k = .ok none ∧
    Database.contains_key T ⟨s⟩ k = .ok false ∧
    Database.read T ⟨s⟩ k = .ok none ∧
    Database.read_alloc T ⟨s⟩ k = .ok none ∧
    Database.get T ⟨s'⟩ k = .error (.codec e) := by
  refine ⟨?_, ?_, ?_, ?_, ?_⟩
  · show SS.get T s k = _
    simp [SS.get, habs]
  · show SS.contains_key T s k = _
    simp [SS.contains_key, kvContains, habs]
  · show SS.read T s k = _
    simp [SS.read, habs]
  · show SS.read_alloc T s k = _
    simp [SS.read_alloc, habs]
  · show SS.get T s' k = _
    simp [SS.get, hsome, hdec]

/-- Witness for C9: the block-height index table, an empty store for
the absent key, and a malformed three-byte height for the decode
failure. -/
theorem C9_not_found_is_not_error_witness :
    Database.get fuelBlockSecondaryKeyBlockHeights ⟨[]⟩ [9] = .ok none ∧
    Database.contains_key fuelBlockSecondaryKeyBlockHeights ⟨[]⟩ [9] =
      .ok false ∧
    Database.read fuelBlockSecondaryKeyBlockHeights ⟨[]⟩ [9] = .ok none ∧
    Database.read_alloc fuelBlockSecondaryKeyBlockHeights ⟨[]⟩ [9] =
      .ok none ∧
    Database.get fuelBlockSecondaryKeyBlockHeights
        ⟨[((Column.FuelBlockSecondaryKeyBlockHeights, [9]), [1, 2, 3])]⟩
        [9] =
      .error (.codec .wrongLength) :=
  C9_not_found_is_not_error fuelBlockSecondaryKeyBlockHeights [] [9]
    (by decide)
    [((Column.FuelBlockSecondaryKeyBlockHeights, [9]), [1, 2, 3])]
    [1, 2, 3] .wrongLength (by decide) (by rfl)

/-- C10: for every table on the structured-implementation allow-list,
each `Database` facade operation returns exactly the result of the
corresponding structured storage operation on the underlying data
source: the facade adds no behaviour of its own. -/
theorem C10_facade_delegates {K V : Type} (T : TableDef K V)
    (hT : T.column ∈ useStructuredImplementation)
    (db : Database) (k : K) (v : V) (metaColumn : Column)
    (treeKey : Bytes) :
    Database.get T db k = SS.get T db.data k ∧
    Database.contains_key T db k = SS.contains_key T db.data k ∧
    (Database.insert T db k v).1 = (SS.insert T db.data k v).1 ∧
    (Database.insert T db k v).2.data = (SS.insert T db.data k v).2 ∧
    (Database.remove T db k).1 = (SS.remove T db.data k).1 ∧
    (Database.remove T db k).2.data = (SS.remove T db.data k).2 ∧
    Database.root metaColumn db treeKey =
      SS.root metaColumn db.data treeKey ∧
    Database.size_of_value T db k = SS.size_of_value T db.data k ∧
    Database.read T db k = SS.read T db.data k ∧
    Database.read_alloc T db k = SS.read_alloc T db.data k :=
  ⟨rfl, rfl, rfl, rfl, rfl, rfl, rfl, rfl, rfl, rfl⟩

/-- Witness for C10: the contract-bytecode table, which is on the
allow-list. -/
theorem C10_facade_delegates_witness :
    contractsRawCode.column ∈ useStructuredImplementation ∧
    (Database.get contractsRawCode ⟨[]⟩ [1] =
        SS.get contractsRawCode [] [1] ∧
      Database.contains_key contractsRawCode ⟨[]⟩ [1] =
        SS.contains_key contractsRawCode [] [1] ∧
      (Database.insert contractsRawCode ⟨[]⟩ [1] [2]).1 =
        (SS.insert contractsRawCode [] [1] [2]).1 ∧
      (Database.insert contractsRawCode ⟨[]⟩ [1] [2]).2.data =
        (SS.insert contractsRawCode [] [1] [2]).2 ∧
      (Database.remove contractsRawCode ⟨[]⟩ [1]).1 =
        (SS.remove contractsRawCode [] [1]).1 ∧
      (Database.remove contractsRawCode ⟨[]⟩ [1]).2.data =
        (SS.remove contractsRawCode [] [1]).2 ∧
      Database.root Column.FuelBlockMerkleMetadata ⟨[]⟩ [3] =
        SS.root Column.FuelBlockMerkleMetadata [] [3] ∧
      Database.size_of_value contractsRawCode ⟨[]⟩ [1] =
        SS.size_of_value contractsRawCode [] [1] ∧
      Database.read contractsRawCode ⟨[]⟩ [1] =
        SS.read contractsRawCode [] [1] ∧
      Database.read_alloc contractsRawCode ⟨[]⟩ [1] =
        SS.read_alloc contractsRawCode [] [1]) :=
  ⟨by decide,
   C10_facade_delegates contractsRawCode (by decide) ⟨[]⟩ [1] [2]
     Column.FuelBlockMerkleMetadata [3]⟩

end FuelStorage
